import Mathlib

/-!
Verification of the SWE-bench evaluation-harness core against its
natural-language specification.

The development shallowly embeds the relevant Python code:

* `swebench/harness/utils.py` — `parse_eval_script`, `make_test_spec`,
  `run_sequential`, `run_threadpool`;
* `swebench/types.py` — the `TestSpec` dataclass and its `eval_script`
  property;
* `swebench/image_builder/image_spec.py` — the `ImageSpec` dataclass, its
  `__post_init__` validation and the `name`/`filesafe_name`/`platform`
  properties;
* `swebench/image_builder/prepare_images.py` — `filter_image_specs`.

Python strings are modelled as `List Char` (`PyStr`); string methods used by
the code (`strip`, `split`, `join`, `lower`, `replace`) are defined below,
restricted to the ASCII behaviour the harness relies on.  Fallible Python
code (raising) is modelled with `Except`.
-/

/-- A Python string, modelled as its list of characters. -/
abbrev PyStr := List Char

/-- The whitespace characters stripped by Python `str.strip()` (ASCII part:
space, tab, newline, carriage return, vertical tab, form feed; Unicode
whitespace does not occur in the harness data and is not modelled). -/
def pyIsSpace (c : Char) : Bool :=
  c = ' ' || c = '\t' || c = '\n' || c = '\r' || c = '\x0b' || c = '\x0c'

/-- Python `str.strip()`: remove leading and trailing whitespace. -/
def pyStrip (s : PyStr) : PyStr :=
  ((s.dropWhile pyIsSpace).reverse.dropWhile pyIsSpace).reverse

/-- Python `str.lower()` (ASCII letters; the harness only lowercases image
names built from ASCII identifiers). -/
def pyLower (s : PyStr) : PyStr :=
  s.map Char.toLower

/-- Uppercase test used by the spec's "no uppercase characters" clauses
(ASCII `A`–`Z`, matching what `str.lower()` can produce on this data). -/
def pyIsUpper (c : Char) : Bool :=
  65 ≤ c.toNat && c.toNat ≤ 90

/-- Python `str.replace(old, new)`: replace every non-overlapping occurrence
of `old`, scanning left to right.  The call sites in the harness only use
non-empty `old` patterns (`"__"`, `":"`); for an empty pattern we return the
string unchanged (Python's empty-pattern behaviour is never exercised). -/
def pyReplace (old new : PyStr) : PyStr → PyStr
  | [] => []
  | c :: rest =>
    if h : old ≠ [] ∧ old.isPrefixOf (c :: rest) then
      new ++ pyReplace old new ((c :: rest).drop old.length)
    else
      c :: pyReplace old new rest
termination_by s => s.length
decreasing_by
  · simp only [List.length_drop, List.length_cons]
    have hlen : 1 ≤ old.length := by
      cases old with
      | nil => exact absurd rfl h.1
      | cons _ _ => simp
    omega
  · simp

/-- The shebang line stripped by `parse_eval_script` (`utils.py`). -/
def shebangLine : PyStr := "#!/bin/bash".data

/-- The strict-mode directive stripped by `parse_eval_script` (`utils.py`). -/
def setFlagsLine : PyStr := "set -uxo pipefail".data

/-- Function `parse_eval_script` from `swebench/harness/utils.py`:
`[line for line in eval_script.strip().split("\n")
  if line not in ("#!/bin/bash", "set -uxo pipefail")]`. -/
def parse_eval_script (eval_script : PyStr) : List PyStr :=
  ((pyStrip eval_script).splitOn '\n').filter
    (fun line => !(line == shebangLine || line == setFlagsLine))

/-- The `TestSpec` dataclass from `swebench/types.py`.  Its declared fields
are exactly: `instance_id`, `image`, `eval_script_list`, `repo`, `version`,
`FAIL_TO_PASS`, `PASS_TO_PASS`. -/
structure TestSpec where
  instance_id : PyStr
  image : PyStr
  eval_script_list : List PyStr
  repo : PyStr
  version : PyStr
  FAIL_TO_PASS : List PyStr
  PASS_TO_PASS : List PyStr
deriving DecidableEq, Repr

/-- The names of the fields declared by the `TestSpec` dataclass in
`swebench/types.py` (the keyword parameters its generated `__init__`
accepts). -/
def TestSpec.fieldNames : List PyStr :=
  ["instance_id", "image", "eval_script_list", "repo", "version",
   "FAIL_TO_PASS", "PASS_TO_PASS"].map String.data

/-- The `eval_script` property of `TestSpec` (`swebench/types.py`):
`"\n".join(["#!/bin/bash", "set -uxo pipefail"] + self.eval_script_list) + "\n"`.
(The property's debug branch that flattens non-string items is the identity
here, since in this typed model every item of `eval_script_list` is a
string.) -/
def TestSpec.eval_script (ts : TestSpec) : PyStr :=
  ['\n'].intercalate ([shebangLine, setFlagsLine] ++ ts.eval_script_list) ++ ['\n']

/-- Python exceptions raised by the embedded code. -/
inductive PyErr where
  | typeError (msg : PyStr)
  | jsonDecodeError (msg : PyStr)
  | valueError (msg : PyStr)
deriving DecidableEq, Repr

/-- The shape in which a `FAIL_TO_PASS` / `PASS_TO_PASS` field arrives in a
dataset instance: either a JSON-encoded string or already a list of test
names. -/
inductive TestField where
  | asStr (s : PyStr)
  | asList (l : List PyStr)
deriving DecidableEq, Repr

/-- A dataset instance as consumed by `make_test_spec`: a record containing
all the required fields named in its docstring (`instance_id`, `image`,
`repo`, `version`, `FAIL_TO_PASS`, `PASS_TO_PASS`, `log_parser`,
`eval_type`, `eval_script`). -/
structure SWEbenchRecord where
  instance_id : PyStr
  image : PyStr
  repo : PyStr
  version : PyStr
  FAIL_TO_PASS : TestField
  PASS_TO_PASS : TestField
  log_parser_key : PyStr
  eval_type_tag : PyStr
  eval_script : PyStr
deriving DecidableEq, Repr

/-- The keyword arguments `make_test_spec` passes to the `TestSpec(...)`
call in `swebench/harness/utils.py`. -/
def testSpecCallKwargs : List PyStr :=
  ["instance_id", "image", "eval_script_list", "repo", "version",
   "FAIL_TO_PASS", "PASS_TO_PASS", "log_parser", "eval_type"].map String.data

/-- The expression `json.loads(f2p) if isinstance(f2p, str) else f2p` from
`make_test_spec`.
`json_loads` is the standard-library JSON decoder, passed in as a parameter
(it is external to the repository); it may fail with a decode error. -/
def decodeTestField (json_loads : PyStr → Except PyErr (List PyStr)) :
    TestField → Except PyErr (List PyStr)
  | .asStr s => json_loads s
  | .asList l => .ok l

/-- Function `make_test_spec` from `swebench/harness/utils.py`.  Python
evaluates the
argument expressions of the `TestSpec(...)` call first (so a JSON decode
error surfaces before the call is bound), then binds each keyword argument
to a declared dataclass field; a keyword that names no declared field makes
the generated `__init__` raise `TypeError`. -/
def make_test_spec (json_loads : PyStr → Except PyErr (List PyStr))
    (inst : SWEbenchRecord) : Except PyErr TestSpec := do
  let f2p ← decodeTestField json_loads inst.FAIL_TO_PASS
  let p2p ← decodeTestField json_loads inst.PASS_TO_PASS
  let esl := parse_eval_script inst.eval_script
  if testSpecCallKwargs.all (fun k => TestSpec.fieldNames.contains k) then
    .ok { instance_id := inst.instance_id, image := inst.image,
          eval_script_list := esl, repo := inst.repo,
          version := inst.version, FAIL_TO_PASS := f2p,
          PASS_TO_PASS := p2p }
  else
    .error (.typeError
      "TestSpec.__init__ got an unexpected keyword argument".data)

/-- The `ImageSpec` dataclass from `swebench/image_builder/image_spec.py`
(fields and defaults as declared; validation lives in `__post_init__`,
modelled by `ImageSpec.validate` below). -/
structure ImageSpec where
  instance_id : PyStr
  dockerfile : PyStr
  /-- the `namespace` field of the dataclass (`namespace` is reserved in
  Lean) -/
  nspace : Option PyStr
  tag : PyStr := "latest".data
  arch : PyStr := "amd64".data
deriving DecidableEq, Repr

/-- Method `ImageSpec.__post_init__`: the validation checks, in source order.
Python falsiness of a string is emptiness. -/
def ImageSpec.validate (s : ImageSpec) : Except PyErr Unit :=
  if s.instance_id = [] then
    .error (.valueError "instance_id cannot be empty".data)
  else if s.dockerfile = [] then
    .error (.valueError "dockerfile cannot be empty".data)
  else if !(["amd64".data, "arm64".data].contains s.arch) then
    .error (.valueError "Invalid architecture".data)
  else if s.nspace = some [] then
    .error (.valueError "namespace cannot be empty string if provided".data)
  else
    .ok ()

/-- Constructing an `ImageSpec(...)`: the dataclass stores the arguments and
then runs `__post_init__`, which may raise `ValueError`. -/
def makeImageSpec (instance_id dockerfile : PyStr) (ns : Option PyStr)
    (tag arch : PyStr) : Except PyErr ImageSpec :=
  let s : ImageSpec :=
    { instance_id := instance_id, dockerfile := dockerfile, nspace := ns,
      tag := tag, arch := arch }
  match s.validate with
  | .ok _ => .ok s
  | .error e => .error e

/-- Property `ImageSpec.is_remote_image`: `self.namespace is not None`. -/
def ImageSpec.is_remote_image (s : ImageSpec) : Bool :=
  s.nspace.isSome

/-- Property `ImageSpec.name`:
`key = f"{self.arch}.{self.instance_id}:{self.tag}"`, then if the image is
remote, `key = f"{self.namespace}/{key}".replace("__", "_1776_")`; finally
`key.lower()`. -/
def ImageSpec.name (s : ImageSpec) : PyStr :=
  let key := s.arch ++ '.' :: s.instance_id ++ ':' :: s.tag
  let key :=
    match s.nspace with
    | some ns => pyReplace "__".data "_1776_".data (ns ++ '/' :: key)
    | none => key
  pyLower key

/-- Property `ImageSpec.filesafe_name`: `self.name.replace(":", "__")`. -/
def ImageSpec.filesafe_name (s : ImageSpec) : PyStr :=
  pyReplace ":".data "__".data s.name

/-- The `ImageSpec.platform` property, branch for branch. -/
def ImageSpec.platform (s : ImageSpec) : Except PyErr PyStr :=
  if s.arch = "amd64".data then .ok "linux/amd64".data
  else if s.arch = "x86_64".data then .ok "linux/amd64".data
  else if s.arch = "arm64".data then .ok "linux/arm64/v8".data
  else .error (.valueError "Invalid architecture".data)

/-- Function `filter_image_specs` from
`swebench/image_builder/prepare_images.py`.
`existing_images` is the result of the `list_images(client)` engine query,
passed in as data (the only I/O of the function). -/
def filter_image_specs (image_specs : List ImageSpec)
    (existing_images : List PyStr) (force_rebuild : Bool) : List ImageSpec :=
  match image_specs with
  | [] => []
  | spec :: rest =>
    if force_rebuild then
      spec :: filter_image_specs rest existing_images force_rebuild
    else if !(existing_images.contains spec.name) then
      spec :: filter_image_specs rest existing_images force_rebuild
    else
      filter_image_specs rest existing_images force_rebuild

/-- Function `run_sequential` from `swebench/harness/utils.py`.  The worker
`func` is
modelled as returning `Except ε β`: `.error` is a raised exception, `.ok`
a normal return (whose value the runner discards — it only checks for an
exception).  Progress-bar calls are display-only and not modelled. -/
def run_sequential (func : α → Except ε β) (args_list : List α) :
    List α × List α :=
  match args_list with
  | [] => ([], [])
  | args :: rest =>
    let r := run_sequential func rest
    match func args with
    | .ok _ => (args :: r.1, r.2)
    | .error _ => (r.1, args :: r.2)

/-- The worker-pool branch of `run_threadpool`: every payload is submitted,
and results are collected in `as_completed` order, modelled by `order`, the
list of payload indices in completion order (any permutation of the indices;
an out-of-range index never occurs for a genuine completion order and is
skipped).  A future succeeded iff its call returned without raising. -/
def poolCollect (func : α → Except ε β) (payloads : List α) :
    List Nat → List α × List α
  | [] => ([], [])
  | i :: rest =>
    let r := poolCollect func payloads rest
    match payloads[i]? with
    | none => r
    | some a =>
      match func a with
      | .ok _ => (a :: r.1, r.2)
      | .error _ => (r.1, a :: r.2)

/-- Function `run_threadpool` from `swebench/harness/utils.py`: with a
non-positive
`max_workers` it immediately returns `run_sequential(func, payloads)`;
otherwise it runs the pool and collects in completion order. -/
def run_threadpool (func : α → Except ε β) (payloads : List α)
    (max_workers : Int) (order : List Nat) : List α × List α :=
  if max_workers ≤ 0 then run_sequential func payloads
  else poolCollect func payloads order

/-- A simple stand-in JSON decoder used to evaluate the model on concrete
records (the decoder's behaviour is irrelevant: the theorems below hold for
every decoder). -/
def jsonLoadsStub : PyStr → Except PyErr (List PyStr) :=
  fun s => .ok [s]

/-- A concrete dataset record with every required field populated,
`FAIL_TO_PASS`/`PASS_TO_PASS` arriving as lists. -/
def sampleRecordList : SWEbenchRecord :=
  { instance_id := "astropy__astropy-12907".data
    image := "swebench/astropy:latest".data
    repo := "astropy/astropy".data
    version := "5.1".data
    FAIL_TO_PASS := .asList ["test_a".data]
    PASS_TO_PASS := .asList ["test_b".data]
    log_parser_key := "pytest".data
    eval_type_tag := "pass_and_fail".data
    eval_script := "#!/bin/bash\nset -uxo pipefail\npytest -rA".data }

/-- The same record with `FAIL_TO_PASS`/`PASS_TO_PASS` arriving as
JSON-encoded strings. -/
def sampleRecordStr : SWEbenchRecord :=
  { sampleRecordList with
    FAIL_TO_PASS := .asStr "[\"test_a\"]".data
    PASS_TO_PASS := .asStr "[\"test_b\"]".data }

/-- A concrete worker used by witnesses: raises exactly on payload `3`. -/
def failsOnThree : Nat → Except Unit Unit :=
  fun n => if n = 3 then .error () else .ok ()

/-- A concrete valid spec used by witnesses. -/
def sampleImageSpec : ImageSpec :=
  { instance_id := "django__django-1".data, dockerfile := "FROM x".data,
    nspace := none, tag := "latest".data, arch := "amd64".data }

/-- The decidable "last retained line is well-behaved" condition: the list's
final line, if any, is nonempty and does not end in whitespace. -/
def lastLineOk (o : Option PyStr) : Bool :=
  match o with
  | none => true
  | some w =>
    match w.getLast? with
    | none => false
    | some c => !pyIsSpace c

/-- C1.  The claim says `make_test_spec` returns, without error, a
`TestSpec` carrying the record's `log_parser` and `eval_type`.  On the code
it does not: the `TestSpec` dataclass in `swebench/types.py` declares
neither a `log_parser` nor an `eval_type` field, so the keyword arguments
`make_test_spec` passes make the generated `__init__` raise `TypeError` —
here evaluated on a fully-populated record. -/
theorem make_test_spec_raises_on_valid_record :
    make_test_spec jsonLoadsStub sampleRecordList =
      .error (.typeError
        "TestSpec.__init__ got an unexpected keyword argument".data) ∧
    TestSpec.fieldNames.contains "log_parser".data = false ∧
    TestSpec.fieldNames.contains "eval_type".data = false := by
  refine ⟨rfl, rfl, rfl⟩

/-- C4.  The claim speaks of the `FAIL_TO_PASS`/`PASS_TO_PASS` fields of
"the TestSpec built from" a valid record; but no `TestSpec` is ever built:
for every decoder and every record the call raises (first conjunct), in
particular on the concrete record in each arrival shape (string or list).
The decode step itself is the claimed one — `json.loads` exactly when the
field is a string, identity on lists (last two conjuncts) — but its results
are discarded by the raised `TypeError`. -/
theorem make_test_spec_never_builds_testspec :
    (∀ (J : PyStr → Except PyErr (List PyStr)) (inst : SWEbenchRecord),
      (make_test_spec J inst).isOk = false) ∧
    (make_test_spec jsonLoadsStub sampleRecordStr).isOk = false ∧
    (make_test_spec jsonLoadsStub sampleRecordList).isOk = false ∧
    (∀ (J : PyStr → Except PyErr (List PyStr)) (s : PyStr),
      decodeTestField J (.asStr s) = J s) ∧
    (∀ (J : PyStr → Except PyErr (List PyStr)) (l : List PyStr),
      decodeTestField J (.asList l) = .ok l) := by
  refine ⟨?_, rfl, rfl, fun _ _ => rfl, fun _ _ => rfl⟩
  intro J inst
  unfold make_test_spec
  cases hf : decodeTestField J inst.FAIL_TO_PASS with
  | error e => rfl
  | ok v =>
    cases hp : decodeTestField J inst.PASS_TO_PASS with
    | error e => rfl
    | ok w => rfl

/-- C7.  When the configured worker count is non-positive, `run_threadpool`
returns exactly the `(succeeded, failed)` pair of `run_sequential` on the
same function and payloads, whatever completion order the pool would have
produced. -/
theorem run_threadpool_nonpos_eq_run_sequential {α ε β : Type}
    (func : α → Except ε β) (payloads : List α) (max_workers : Int)
    (order : List Nat) (h : max_workers ≤ 0) :
    run_threadpool func payloads max_workers order =
      run_sequential func payloads := by
  simp [run_threadpool, h]

/-- Witness for C7 at a concrete batch and worker count `0`. -/
theorem run_threadpool_nonpos_eq_run_sequential_witness :
    run_threadpool failsOnThree [1, 2, 3, 4, 5] 0 [4, 3, 2, 1, 0] =
      run_sequential failsOnThree [1, 2, 3, 4, 5] :=
  run_threadpool_nonpos_eq_run_sequential failsOnThree [1, 2, 3, 4, 5] 0
    [4, 3, 2, 1, 0] (by decide)

/-- Constructing an `ImageSpec` succeeds exactly when all four
`__post_init__`
checks pass, and then returns the argument record. -/
lemma makeImageSpec_ok_iff (iid d : PyStr) (ns : Option PyStr)
    (tag arch : PyStr) (s : ImageSpec) :
    makeImageSpec iid d ns tag arch = .ok s ↔
      (({ instance_id := iid, dockerfile := d, nspace := ns, tag := tag,
          arch := arch } : ImageSpec) = s ∧
        iid ≠ [] ∧ d ≠ [] ∧
        (arch = "amd64".data ∨ arch = "arm64".data) ∧ ns ≠ some []) := by
  unfold makeImageSpec ImageSpec.validate
  dsimp only
  by_cases h1 : iid = [] <;> by_cases h2 : d = [] <;>
    by_cases h3 : arch = "amd64".data ∨ arch = "arm64".data <;>
    by_cases h4 : ns = some [] <;>
    simp [h1, h2, h3, h4]

/-- Constructing an `ImageSpec` returns without raising exactly when all
four
`__post_init__` checks pass. -/
lemma makeImageSpec_isOk_iff (iid d : PyStr) (ns : Option PyStr)
    (tag arch : PyStr) :
    (makeImageSpec iid d ns tag arch).isOk = true ↔
      (iid ≠ [] ∧ d ≠ [] ∧
        (arch = "amd64".data ∨ arch = "arm64".data) ∧ ns ≠ some []) := by
  unfold makeImageSpec ImageSpec.validate
  dsimp only
  by_cases h1 : iid = [] <;> by_cases h2 : d = [] <;>
    by_cases h3 : arch = "amd64".data ∨ arch = "arm64".data <;>
    by_cases h4 : ns = some [] <;>
    simp [h1, h2, h3, h4, Except.isOk, Except.toBool]

/-- C8.  `ImageSpec` construction raises `ValueError` iff the instance id is
empty, or the dockerfile is empty, or the architecture is outside
`{amd64, arm64}`, or the namespace is provided as the empty string; on
success the stored fields are exactly the arguments. -/
theorem makeImageSpec_valueError_iff (iid d : PyStr) (ns : Option PyStr)
    (tag arch : PyStr) :
    ((makeImageSpec iid d ns tag arch).isOk = false ↔
      (iid = [] ∨ d = [] ∨ ¬(arch = "amd64".data ∨ arch = "arm64".data) ∨
        ns = some [])) ∧
    (∀ s : ImageSpec, makeImageSpec iid d ns tag arch = .ok s →
      s.instance_id = iid ∧ s.dockerfile = d ∧ s.nspace = ns ∧
        s.tag = tag ∧ s.arch = arch) := by
  constructor
  · rw [Bool.eq_false_iff, Ne, makeImageSpec_isOk_iff]
    tauto
  · intro s hs
    obtain ⟨hlit, -⟩ := (makeImageSpec_ok_iff iid d ns tag arch s).mp hs
    cases hlit
    exact ⟨rfl, rfl, rfl, rfl, rfl⟩

/-- Witness for C8: a spec with an empty instance id fails construction. -/
theorem makeImageSpec_valueError_iff_witness :
    (makeImageSpec [] "FROM x".data none "latest".data "amd64".data).isOk
      = false :=
  (makeImageSpec_valueError_iff [] "FROM x".data none "latest".data
    "amd64".data).1.mpr (Or.inl rfl)

/-- C9.  For a spec that passed construction-time validation, `platform`
never reaches its error branch: it returns `linux/amd64` for `amd64` and
`linux/arm64/v8` for `arm64`. -/
theorem platform_total_on_validated (iid d : PyStr) (ns : Option PyStr)
    (tag arch : PyStr) (s : ImageSpec)
    (hok : makeImageSpec iid d ns tag arch = .ok s) :
    (s.platform = .ok "linux/amd64".data ∨
      s.platform = .ok "linux/arm64/v8".data) ∧
    (s.arch = "amd64".data → s.platform = .ok "linux/amd64".data) ∧
    (s.arch = "arm64".data → s.platform = .ok "linux/arm64/v8".data) := by
  obtain ⟨hlit, -, -, harch, -⟩ :=
    (makeImageSpec_ok_iff iid d ns tag arch s).mp hok
  cases hlit
  refine ⟨?_, fun h => ?_, fun h => ?_⟩
  · rcases harch with h | h
    · subst h; exact Or.inl rfl
    · subst h; exact Or.inr rfl
  · have h2 : arch = "amd64".data := h
    subst h2
    rfl
  · have h2 : arch = "arm64".data := h
    subst h2
    rfl

/-- Witness for C9 at a concrete validated `arm64` spec. -/
theorem platform_total_on_validated_witness :
    ImageSpec.platform
        { instance_id := "i".data, dockerfile := "F".data, nspace := none,
          tag := "latest".data, arch := "arm64".data } =
      .ok "linux/arm64/v8".data :=
  (platform_total_on_validated "i".data "F".data none "latest".data
    "arm64".data _ rfl).2.2 rfl

/-- C6.  With `force_rebuild` the whole batch is returned; without it,
exactly the specs whose derived name is not among the existing images; in
particular, if every spec's name already exists, nothing is left to build
(so a repeated build of an unchanged batch performs zero builds). -/
theorem filter_image_specs_correct (specs : List ImageSpec)
    (existing : List PyStr) :
    filter_image_specs specs existing true = specs ∧
    filter_image_specs specs existing false =
      specs.filter (fun s => !(existing.contains s.name)) ∧
    ((∀ s ∈ specs, s.name ∈ existing) →
      filter_image_specs specs existing false = []) := by
  have hforce : filter_image_specs specs existing true = specs := by
    induction specs with
    | nil => rfl
    | cons a t ih => simp [filter_image_specs, ih]
  have hfilter : filter_image_specs specs existing false =
      specs.filter (fun s => !(existing.contains s.name)) := by
    clear hforce
    induction specs with
    | nil => rfl
    | cons a t ih =>
      by_cases h : a.name ∈ existing <;>
        simp [filter_image_specs, List.filter_cons, h, ih]
  refine ⟨hforce, hfilter, fun hall => ?_⟩
  rw [hfilter, List.filter_eq_nil_iff]
  intro a ha
  simpa using hall a ha

/-- Witness for C6: a batch whose single spec is already built filters to
the empty batch. -/
theorem filter_image_specs_correct_witness :
    filter_image_specs [sampleImageSpec] [sampleImageSpec.name] false = [] :=
  (filter_image_specs_correct [sampleImageSpec] [sampleImageSpec.name]).2.2
    (by intro s hs; simp at hs; simp [hs])

/-- Runner `run_sequential` partitions its input by whether the call raised,
keeping submission order. -/
lemma run_sequential_eq_filter {α ε β : Type} (func : α → Except ε β)
    (L : List α) :
    run_sequential func L =
      (L.filter (fun a => (func a).isOk),
       L.filter (fun a => !(func a).isOk)) := by
  induction L with
  | nil => rfl
  | cons a t ih =>
    cases hf : func a with
    | ok v =>
      have : (func a).isOk = true := by rw [hf]; rfl
      simp [run_sequential, hf, ih, List.filter_cons, this,
        Except.isOk, Except.toBool]
    | error e =>
      have : (func a).isOk = false := by rw [hf]; rfl
      simp [run_sequential, hf, ih, List.filter_cons, this,
        Except.isOk, Except.toBool]

/-- Runner `poolCollect` is the same partition applied to the payloads
fetched in
completion order. -/
lemma poolCollect_eq_filter {α ε β : Type} (func : α → Except ε β)
    (L : List α) (order : List Nat) :
    poolCollect func L order =
      ((order.filterMap (fun i => L[i]?)).filter (fun a => (func a).isOk),
       (order.filterMap (fun i => L[i]?)).filter (fun a => !(func a).isOk)) := by
  induction order with
  | nil => rfl
  | cons i rest ih =>
    cases hi : L[i]? with
    | none => simp [poolCollect, hi, ih, List.filterMap_cons]
    | some a =>
      cases hf : func a with
      | ok v =>
        have : (func a).isOk = true := by rw [hf]; rfl
        simp [poolCollect, hi, hf, ih, List.filterMap_cons,
          List.filter_cons, this, Except.isOk, Except.toBool]
      | error e =>
        have : (func a).isOk = false := by rw [hf]; rfl
        simp [poolCollect, hi, hf, ih, List.filterMap_cons,
          List.filter_cons, this, Except.isOk, Except.toBool]

/-- Fetching every index of `L` in order yields `L` itself. -/
lemma filterMap_getElem_range {α : Type} (L : List α) :
    (List.range L.length).filterMap (fun i => L[i]?) = L := by
  induction L with
  | nil => rfl
  | cons a t ih =>
    rw [List.length_cons, List.range_succ_eq_map, List.filterMap_cons]
    simp only [List.getElem?_cons_zero, List.filterMap_map]
    have : (fun i => (a :: t)[Nat.succ i]?) = fun i => t[i]? := by
      funext i
      simp
    simp only [Function.comp_def, this] at *
    rw [ih]

/-- For a genuine completion order (a permutation of the payload indices),
the payloads fetched in completion order are a permutation of the input. -/
lemma filterMap_perm_of_perm_range {α : Type} (L : List α)
    (order : List Nat) (h : order.Perm (List.range L.length)) :
    (order.filterMap (fun i => L[i]?)).Perm L := by
  have := List.Perm.filterMap (fun i => L[i]?) h
  rwa [filterMap_getElem_range] at this

/-- Filtering by a predicate and by its negation partitions a list's length. -/
lemma length_filter_partition {α : Type} (p : α → Bool) (L : List α) :
    (L.filter p).length + (L.filter (fun a => !p a)).length = L.length := by
  induction L with
  | nil => rfl
  | cons a t ih =>
    by_cases h : p a <;> simp [List.filter_cons, h] <;> omega

/-- Filtering by a predicate and by its negation partitions each element's
multiplicity. -/
lemma count_filter_partition {α : Type} [DecidableEq α] (p : α → Bool)
    (L : List α) (a : α) :
    (L.filter p).count a + (L.filter (fun x => !p x)).count a = L.count a := by
  induction L with
  | nil => rfl
  | cons b t ih =>
    rw [List.filter_cons, List.filter_cons]
    by_cases hb : p b = true
    · rw [if_pos hb, if_neg (by simp [hb]), List.count_cons, List.count_cons]
      omega
    · rw [if_neg hb, if_pos (by simp [Bool.not_eq_true] at hb; simp [hb]),
        List.count_cons, List.count_cons]
      omega

/-- The unique-failure shape: if exactly the `i`-th call raises, the kept
elements are the list with index `i` erased and the dropped ones are exactly
the `i`-th element. -/
lemma filter_of_unique_failure {α ε β : Type} (func : α → Except ε β) :
    ∀ (L : List α) (i : Nat) (hi : i < L.length),
      (∀ j (hj : j < L.length), ((func (L.get ⟨j, hj⟩)).isOk = true ↔ j ≠ i)) →
      L.filter (fun a => (func a).isOk) = L.eraseIdx i ∧
        L.filter (fun a => !(func a).isOk) = [L.get ⟨i, hi⟩] := by
  intro L
  induction L with
  | nil => intro i hi; exact absurd hi (by simp)
  | cons a t ih =>
    intro i hi hiff
    cases i with
    | zero =>
      have ha : (func a).isOk = false := by
        have := hiff 0 (by simp)
        simpa using this
      have hrest : ∀ x ∈ t, (func x).isOk = true := by
        intro x hx
        obtain ⟨j, hj, hx⟩ := List.mem_iff_get.mp hx
        have := (hiff (j + 1) (by simpa using Nat.succ_lt_succ hj.isLt)).mpr
          (by omega)
        simpa [hx] using this
      constructor
      · rw [List.filter_cons_of_neg (by simp [ha]), List.eraseIdx_cons_zero]
        exact List.filter_eq_self.mpr hrest
      · rw [List.filter_cons_of_pos (by simp [ha])]
        have : t.filter (fun x => !(func x).isOk) = [] :=
          List.filter_eq_nil_iff.mpr (by intro x hx; simp [hrest x hx])
        simp [this]
    | succ k =>
      have hk : k < t.length := by simpa using Nat.lt_of_succ_lt_succ hi
      have ha : (func a).isOk = true := by
        have := (hiff 0 (by simp)).mpr (by omega)
        simpa using this
      have hshift : ∀ j (hj : j < t.length),
          ((func (t.get ⟨j, hj⟩)).isOk = true ↔ j ≠ k) := by
        intro j hj
        have := hiff (j + 1) (by simp; omega)

        simpa [Nat.succ_ne_succ] using this
      obtain ⟨h1, h2⟩ := ih k hk hshift
      constructor
      · rw [List.filter_cons_of_pos (by simp [ha]), h1,
          List.eraseIdx_cons_succ]
      · rw [List.filter_cons_of_neg (by simp [ha]), h2]
        rfl

/-- C5.  If exactly one unit's call raises, `run_sequential` returns every
other unit (in order) as succeeded and exactly the raising unit as failed —
units after the failing one are executed and appear among the successes —
and the pool branch does the same up to completion order for every
completion order. -/
theorem single_failure_is_isolated {α ε β : Type} (func : α → Except ε β)
    (L : List α) (i : Nat) (hi : i < L.length)
    (hone : ∀ j (hj : j < L.length),
      ((func (L.get ⟨j, hj⟩)).isOk = true ↔ j ≠ i)) :
    run_sequential func L = (L.eraseIdx i, [L.get ⟨i, hi⟩]) ∧
    (∀ order : List Nat, order.Perm (List.range L.length) →
      (poolCollect func L order).2 = [L.get ⟨i, hi⟩] ∧
      (poolCollect func L order).1.Perm (L.eraseIdx i)) := by
  obtain ⟨hok, hbad⟩ := filter_of_unique_failure func L i hi hone
  constructor
  · rw [run_sequential_eq_filter, hok, hbad]
  · intro order hperm
    have hX := filterMap_perm_of_perm_range L order hperm
    rw [poolCollect_eq_filter]
    constructor
    · have : ((order.filterMap (fun i => L[i]?)).filter
          (fun a => !(func a).isOk)).Perm
          (L.filter (fun a => !(func a).isOk)) := hX.filter _
      rw [hbad] at this
      exact List.perm_singleton.mp this
    · have : ((order.filterMap (fun i => L[i]?)).filter
          (fun a => (func a).isOk)).Perm
          (L.filter (fun a => (func a).isOk)) := hX.filter _
      rwa [hok] at this

/-- Witness for C5: a batch of five payloads where payload `3` raises gives
four successes (payloads 4 and 5 executed and succeeded) and one failure,
sequentially and for a reversed completion order. -/
theorem single_failure_is_isolated_witness :
    run_sequential failsOnThree [1, 2, 3, 4, 5] = ([1, 2, 4, 5], [3]) ∧
    (poolCollect failsOnThree [1, 2, 3, 4, 5] [4, 3, 2, 1, 0]).2 = [3] := by
  have h := single_failure_is_isolated failsOnThree [1, 2, 3, 4, 5] 2
    (by decide) (by decide)
  exact ⟨h.1, (h.2 [4, 3, 2, 1, 0] (by decide)).1⟩

/-- C10.  The `(succeeded, failed)` pair of the batch runners partitions the
payloads: lengths sum to the input length, each payload's multiplicity is
split between the two lists, the sequential runner keeps submission order
(both outputs are sublists of the input), membership in either list is
exactly membership in the input plus whether the call raised — independent
of the returned value — and the pool branch partitions multiplicities for
every completion order. -/
theorem runners_partition_payloads {α ε β : Type} [DecidableEq α]
    (func : α → Except ε β) (L : List α) :
    (run_sequential func L).1.length + (run_sequential func L).2.length
        = L.length ∧
    (∀ a, (run_sequential func L).1.count a
        + (run_sequential func L).2.count a = L.count a) ∧
    (run_sequential func L).1.Sublist L ∧
    (run_sequential func L).2.Sublist L ∧
    (∀ a, a ∈ (run_sequential func L).1 ↔ a ∈ L ∧ (func a).isOk = true) ∧
    (∀ a, a ∈ (run_sequential func L).2 ↔ a ∈ L ∧ (func a).isOk = false) ∧
    (∀ order : List Nat, order.Perm (List.range L.length) →
      (poolCollect func L order).1.length
          + (poolCollect func L order).2.length = L.length ∧
      (∀ a, (poolCollect func L order).1.count a
          + (poolCollect func L order).2.count a = L.count a)) := by
  rw [run_sequential_eq_filter]
  refine ⟨length_filter_partition _ L, fun a => count_filter_partition _ L a,
    List.filter_sublist L, List.filter_sublist L, fun a => ?_, fun a => ?_,
    fun order hperm => ?_⟩
  · simp [List.mem_filter]
  · simp [List.mem_filter]
  · rw [poolCollect_eq_filter]
    have hX := filterMap_perm_of_perm_range L order hperm
    constructor
    · rw [length_filter_partition _ (order.filterMap (fun i => L[i]?))]
      exact hX.length_eq
    · intro a
      rw [count_filter_partition _ (order.filterMap (fun i => L[i]?)) a]
      exact hX.count_eq a

/-- Witness for C10 at a concrete batch and completion order. -/
theorem runners_partition_payloads_witness :
    (poolCollect failsOnThree [1, 2, 3, 4, 5] [4, 3, 2, 1, 0]).1.length
        + (poolCollect failsOnThree [1, 2, 3, 4, 5] [4, 3, 2, 1, 0]).2.length
        = 5 :=
  ((runners_partition_payloads failsOnThree [1, 2, 3, 4, 5]).2.2.2.2.2.2
    [4, 3, 2, 1, 0] (by decide)).1

/-- Python `str.lower()` never outputs an ASCII uppercase letter. -/
lemma pyIsUpper_toLower (c : Char) : pyIsUpper (Char.toLower c) = false := by
  by_cases h : 65 ≤ c.toNat ∧ c.toNat ≤ 90
  · have he : Char.toLower c = Char.ofNat (c.toNat + 32) := by
      unfold Char.toLower
      rw [if_pos ⟨h.1, h.2⟩]
    rw [he]
    obtain ⟨h1, h2⟩ := h
    revert h1 h2
    generalize c.toNat = n
    intro h1 h2
    interval_cases n <;> decide
  · have he : Char.toLower c = c := by
      unfold Char.toLower
      rw [if_neg]
      exact fun hc => h ⟨hc.1, hc.2⟩
    rw [he]
    unfold pyIsUpper
    simp only [Bool.and_eq_false_iff, decide_eq_false_iff_not]
    omega

/-- Every character of a replaced string comes from the replacement or from
the original string. -/
lemma mem_pyReplace (old new : PyStr) (s : PyStr) :
    ∀ c ∈ pyReplace old new s, c ∈ new ∨ c ∈ s := by
  match s with
  | [] =>
    intro c hc
    simp only [pyReplace] at hc
    cases hc
  | x :: rest =>
    intro c hc
    rw [pyReplace] at hc
    split at hc
    · next h =>
      rcases List.mem_append.mp hc with h1 | h1
      · exact Or.inl h1
      · rcases mem_pyReplace old new ((x :: rest).drop old.length) c h1
          with h2 | h2
        · exact Or.inl h2
        · exact Or.inr (List.mem_of_mem_drop h2)
    · next h =>
      rcases List.mem_cons.mp hc with h1 | h1
      · exact Or.inr (h1 ▸ List.mem_cons_self _ _)
      · rcases mem_pyReplace old new rest c h1 with h2 | h2
        · exact Or.inl h2
        · exact Or.inr (List.mem_cons_of_mem _ h2)
termination_by s.length
decreasing_by
  · simp
  · rename_i hpre
    cases old with
    | nil => exact absurd rfl hpre.1
    | cons y ys =>
      simp only [List.length_drop, List.length_cons]
      omega

/-- C2 (amended).  `name` is deterministic and neither `name` nor
`filesafe_name` contains an uppercase ASCII character; but the `_1776_`
replacement of double underscores happens only when a namespace is set:
without a namespace a double underscore of the instance identifier is
retained verbatim in the name, and with one the qualified key is rewritten
(shown at a concrete spec), while `filesafe_name` deliberately introduces
`__` in place of the tag separator. -/
theorem image_name_sanitization (s : ImageSpec) :
    (∀ t : ImageSpec, s = t → s.name = t.name) ∧
    (∀ c ∈ s.name, pyIsUpper c = false) ∧
    (∀ c ∈ s.filesafe_name, pyIsUpper c = false) ∧
    (s.nspace = none → "__".data <:+: s.instance_id →
      "__".data <:+: s.name) ∧
    ImageSpec.name
        { instance_id := "a__b".data, dockerfile := "d".data,
          nspace := some "ns".data, tag := "latest".data,
          arch := "amd64".data }
      = "ns/amd64.a_1776_b:latest".data := by
  have hlow : ∀ (k : PyStr), ∀ c ∈ pyLower k, pyIsUpper c = false := by
    intro k c hc
    obtain ⟨d, hd, rfl⟩ := List.mem_map.mp hc
    exact pyIsUpper_toLower d
  have hname : ∀ c ∈ s.name, pyIsUpper c = false := by
    intro c hc
    unfold ImageSpec.name at hc
    dsimp only at hc
    cases hns : s.nspace with
    | none => rw [hns] at hc; exact hlow _ c hc
    | some ns => rw [hns] at hc; exact hlow _ c hc
  refine ⟨fun t ht => ht ▸ rfl, hname, ?_, ?_, ?_⟩
  · intro c hc
    unfold ImageSpec.filesafe_name at hc
    rcases mem_pyReplace ":".data "__".data s.name c hc with h | h
    · have hc2 : c = '_' := by
        simpa using h
      rw [hc2]
      decide
    · exact hname c h
  · intro hns hinf
    have h1 : s.instance_id <:+:
        (s.arch ++ '.' :: s.instance_id ++ ':' :: s.tag) :=
      ⟨s.arch ++ ['.'], ':' :: s.tag, by simp⟩
    have h2 := List.IsInfix.map Char.toLower (hinf.trans h1)
    have h3 : List.map Char.toLower "__".data = "__".data := by decide
    rw [h3] at h2
    unfold ImageSpec.name
    dsimp only
    rw [hns]
    exact h2
  · have hrep : pyReplace "__".data "_1776_".data
        "ns/amd64.a__b:latest".data = "ns/amd64.a_1776_b:latest".data := by
      simp [pyReplace]
    have hbridge : ImageSpec.name
        { instance_id := "a__b".data, dockerfile := "d".data,
          nspace := some "ns".data, tag := "latest".data,
          arch := "amd64".data }
        = pyLower (pyReplace "__".data "_1776_".data
            "ns/amd64.a__b:latest".data) := rfl
    rw [hbridge, hrep]
    decide

/-- Counterexample to C2 as stated: a validly constructible spec without a
namespace whose instance id contains a double underscore keeps the `__` in
its name (no `_1776_` marker appears), and its `filesafe_name` contains a
double underscore as well. -/
theorem image_name_sanitization_counterexample :
    (makeImageSpec "a__b".data "FROM x".data none "latest".data
        "amd64".data).isOk = true ∧
    ImageSpec.name
        { instance_id := "a__b".data, dockerfile := "FROM x".data,
          nspace := none, tag := "latest".data, arch := "amd64".data }
      = "amd64.a__b:latest".data ∧
    "__".data <:+: "amd64.a__b:latest".data ∧
    ¬("_1776_".data <:+: "amd64.a__b:latest".data) ∧
    ImageSpec.filesafe_name
        { instance_id := "a__b".data, dockerfile := "FROM x".data,
          nspace := none, tag := "latest".data,
          arch := "amd64".data } = "amd64.a__b__latest".data := by
  refine ⟨rfl, by decide, by decide, by decide, ?_⟩
  have h1 : ImageSpec.name
      { instance_id := "a__b".data, dockerfile := "FROM x".data,
        nspace := none, tag := "latest".data,
        arch := "amd64".data } = "amd64.a__b:latest".data := by decide
  unfold ImageSpec.filesafe_name
  rw [h1]
  simp [pyReplace]

/-- Witness for C2 (amended), discharging its hypotheses at a concrete
namespace-free spec: the double underscore of the instance id survives into
the name. -/
theorem image_name_sanitization_witness :
    "__".data <:+: ImageSpec.name
        { instance_id := "a__b".data, dockerfile := "FROM x".data,
          nspace := none, tag := "latest".data,
          arch := "amd64".data } :=
  (image_name_sanitization _).2.2.2.1 rfl (by decide)

/-- Applying `intercalate` to a list with a nonempty tail peels off its
head. -/
lemma intercalate_cons_of_ne_nil {α : Type} (sep x : List α)
    (rest : List (List α)) (h : rest ≠ []) :
    List.intercalate sep (x :: rest) = x ++ sep ++ List.intercalate sep rest := by
  cases rest with
  | nil => exact absurd rfl h
  | cons y ys =>
    simp [List.intercalate, List.intersperse_cons_cons, List.append_assoc]

/-- The last element of an `intercalate` whose final piece is nonempty is
the final piece's last element. -/
lemma getLast?_intercalate_concat {α : Type} (sep : List α)
    (pre : List (List α)) (w : List α) (hw : w ≠ []) :
    (List.intercalate sep (pre ++ [w])).getLast? = w.getLast? := by
  obtain ⟨c, hc⟩ : ∃ c, w.getLast? = some c := by
    cases hwl : w.getLast? with
    | none => exact absurd (List.getLast?_eq_none_iff.mp hwl) hw
    | some c => exact ⟨c, rfl⟩
  induction pre with
  | nil =>
    simp [List.intercalate, List.intersperse]
  | cons x xs ih =>
    rw [List.cons_append, intercalate_cons_of_ne_nil sep x (xs ++ [w])
      (by simp), List.getLast?_append, List.getLast?_append, ih, hc]
    rfl

/-- Stripping a string of the form `M ++ "\n"`, where `M` neither starts
nor ends with whitespace, gives back `M`. -/
lemma pyStrip_concat_newline (M : PyStr) (c0 : Char) (h0 : M.head? = some c0)
    (hs0 : pyIsSpace c0 = false) (c1 : Char) (h1 : M.getLast? = some c1)
    (hs1 : pyIsSpace c1 = false) :
    pyStrip (M ++ ['\n']) = M := by
  unfold pyStrip
  have hfront : (M ++ ['\n']).dropWhile pyIsSpace = M ++ ['\n'] := by
    cases M with
    | nil => cases h0
    | cons a t =>
      have ha : a = c0 := by simpa using h0
      subst ha
      simp [List.dropWhile_cons, hs0]
  rw [hfront]
  have hrev : (M ++ ['\n']).reverse = '\n' :: M.reverse := by simp
  rw [hrev, List.dropWhile_cons]
  have hnl : pyIsSpace '\n' = true := rfl
  rw [hnl, if_pos rfl]
  have hrevhead : M.reverse.head? = some c1 := by
    rw [List.head?_reverse]; exact h1
  have hback : M.reverse.dropWhile pyIsSpace = M.reverse := by
    cases hr : M.reverse with
    | nil => rfl
    | cons a t =>
      have ha : a = c1 := by rw [hr] at hrevhead; simpa using hrevhead
      subst ha
      simp [List.dropWhile_cons, hs1]
  rw [hback, List.reverse_reverse]

/-- C3 (amended).  Re-stripping the reconstructed eval script gives back
`eval_script_list` whenever no retained line contains a newline or equals
one of the two preamble lines, and the final retained line (if any) is
nonempty and does not end in whitespace.  (Without those conditions the
round trip can drop or shorten lines — see the counterexample.) -/
theorem parse_eval_script_roundtrip (ts : TestSpec)
    (hlines : ∀ l ∈ ts.eval_script_list,
      '\n' ∉ l ∧ l ≠ shebangLine ∧ l ≠ setFlagsLine)
    (hlast : lastLineOk ts.eval_script_list.getLast? = true) :
    parse_eval_script ts.eval_script = ts.eval_script_list := by
  obtain ⟨iid, img, L, rp, vs, f2p, p2p⟩ := ts
  dsimp only at hlines hlast ⊢
  cases L with
  | nil =>
    show parse_eval_script (['\n'].intercalate
        ([shebangLine, setFlagsLine] ++ ([] : List PyStr)) ++ ['\n'])
      = ([] : List PyStr)
    decide
  | cons a t =>
    have hwne : (a :: t) ≠ [] := by simp
    obtain ⟨w, hwlast⟩ : ∃ w, (a :: t).getLast? = some w :=
      ⟨_, List.getLast?_eq_getLast _ hwne⟩
    have hwg : w = (a :: t).getLast hwne := by
      have hg := List.getLast?_eq_getLast (a :: t) hwne
      rw [hwlast] at hg
      exact Option.some.inj hg
    obtain ⟨c1, hc1, hsc1⟩ : ∃ c, w.getLast? = some c ∧ pyIsSpace c = false := by
      unfold lastLineOk at hlast
      rw [hwlast] at hlast
      dsimp only at hlast
      cases hwl : w.getLast? with
      | none => rw [hwl] at hlast; cases hlast
      | some c =>
        rw [hwl] at hlast
        exact ⟨c, rfl, by simpa using hlast⟩
    have hwne2 : w ≠ [] := by
      intro hweq
      rw [hweq] at hc1
      cases hc1
    have hdecomp : [shebangLine, setFlagsLine] ++ (a :: t) =
        ([shebangLine, setFlagsLine] ++ (a :: t).dropLast) ++ [w] := by
      conv_lhs => rw [← List.dropLast_append_getLast hwne]
      rw [List.append_assoc, hwg]
    have hMlast : (['\n'].intercalate
        ([shebangLine, setFlagsLine] ++ (a :: t))).getLast? = some c1 := by
      rw [hdecomp, getLast?_intercalate_concat ['\n'] _ w hwne2]
      exact hc1
    have hMhead : (['\n'].intercalate
        ([shebangLine, setFlagsLine] ++ (a :: t))).head? = some '#' := by
      rw [List.cons_append, intercalate_cons_of_ne_nil ['\n'] shebangLine
        ([setFlagsLine] ++ (a :: t)) (by simp)]
      rfl
    have hstrip : pyStrip (['\n'].intercalate
        ([shebangLine, setFlagsLine] ++ (a :: t)) ++ ['\n']) =
        ['\n'].intercalate ([shebangLine, setFlagsLine] ++ (a :: t)) :=
      pyStrip_concat_newline _ '#' hMhead rfl c1 hMlast hsc1
    have hsplit : (['\n'].intercalate
        ([shebangLine, setFlagsLine] ++ (a :: t))).splitOn '\n' =
        [shebangLine, setFlagsLine] ++ (a :: t) := by
      apply List.splitOn_intercalate
      · intro l hl
        rcases List.mem_append.mp hl with hl | hl
        · rcases List.mem_cons.mp hl with hl | hl
          · rw [hl]; decide
          · rcases List.mem_cons.mp hl with hl | hl
            · rw [hl]; decide
            · cases hl
        · exact (hlines l hl).1
      · simp
    unfold parse_eval_script TestSpec.eval_script
    dsimp only
    rw [hstrip, hsplit]
    have hf1 : ([shebangLine, setFlagsLine] : List PyStr).filter
        (fun line => !(line == shebangLine || line == setFlagsLine)) = [] := by
      decide
    have hf2 : (a :: t).filter
        (fun line => !(line == shebangLine || line == setFlagsLine)) =
        a :: t := by
      apply List.filter_eq_self.mpr
      intro l hl
      obtain ⟨-, h1, h2⟩ := hlines l hl
      simp [h1, h2]
    rw [List.filter_append, hf1, hf2, List.nil_append]

/-- Counterexample to C3 as stated: a `TestSpec` whose retained-line list
ends with an empty line does not survive the reconstruct-then-strip round
trip — the trailing empty line is eaten by `strip()`. -/
theorem parse_eval_script_roundtrip_counterexample :
    parse_eval_script (TestSpec.eval_script
        { instance_id := [], image := [],
          eval_script_list := ["echo".data, []], repo := [], version := [],
          FAIL_TO_PASS := [], PASS_TO_PASS := [] })
      = ["echo".data] ∧
    (["echo".data] : List PyStr) ≠ ["echo".data, []] := by
  exact ⟨by decide, by decide⟩

/-- Witness for C3 (amended) at a concrete well-behaved script list. -/
theorem parse_eval_script_roundtrip_witness :
    parse_eval_script (TestSpec.eval_script
        { instance_id := [], image := [],
          eval_script_list := ["cd /testbed".data, "pytest -rA".data],
          repo := [], version := [], FAIL_TO_PASS := [], PASS_TO_PASS := [] })
      = ["cd /testbed".data, "pytest -rA".data] :=
  parse_eval_script_roundtrip _ (by decide) (by decide)
